import Mathlib

/-!
Verification of the recurrence pattern engine of the task-planning
application (source: src/lib/recurring-utils.ts).

The development is a shallow embedding of the TypeScript code:

* A model of the proleptic Gregorian calendar and of the ECMAScript `Date`
  object (`JSDate`): a date is a day count since 1970-01-01 plus an opaque
  time-of-day payload.  `setDate` / `setMonth` / `setFullYear` follow the
  ECMA-262 `MakeDay` specification (set the field, overflow normalizes into
  adjacent months/years).  Local-time DST transitions are not modelled: all
  days are uniform, so date-component mutation never disturbs time-of-day,
  which is exactly the situation on a fixed-offset clock.
* A model of dynamically typed JS values (`JSValue`) sufficient for
  `parseRecurringPattern` / `validateRecurringPattern`: the integer fragment
  of JS numbers plus NaN (`JSNum`).  Fractional numbers are not modelled;
  none of the verified properties depend on them.  `JSON.parse` and date
  parsing by the `Date` constructor are abstracted as function parameters
  (`jp`, `nd`) since their grammar is not part of this repository.
* The calculator `getNextOccurrence` (and helpers `findNextDayOfWeek`,
  `getCustomNextOccurrence`), the activity check `isTaskActive` and the
  formatter `getRecurrenceSummary`, translated line by line from the source.
-/

/-! ## Calendar arithmetic (proleptic Gregorian, day numbers relative to 1970-01-01) -/

/-- Day number of 1 January of year `y`, counted from 1 January of year 0
(floor divisions; valid for every integer year). -/
def yearStartAux (y : Int) : Int :=
  365 * y + (y + 3) / 4 - (y + 99) / 100 + (y + 399) / 400

/-- Day number of 1 January of year `y`, counted from the epoch 1970-01-01.
The constant 719528 is `yearStartAux 1970`. -/
def yearStart (y : Int) : Int := yearStartAux y - 719528

/-- 1 if `y` is a Gregorian leap year, 0 otherwise. -/
def leapDays (y : Int) : Int :=
  if (y % 4 = 0 ∧ y % 100 ≠ 0) ∨ y % 400 = 0 then 1 else 0

/-- First-order approximation of the year containing epoch day `z`
(146097 days per 400 years). -/
def yearApprox (z : Int) : Int := (400 * z + 287811200) / 146097

/-- The year containing epoch day `z`: the approximation corrected by
comparing with the surrounding year starts. -/
def yearFromDays (z : Int) : Int :=
  if z < yearStart (yearApprox z - 1) then yearApprox z - 2
  else if z < yearStart (yearApprox z) then yearApprox z - 1
  else if z < yearStart (yearApprox z + 1) then yearApprox z
  else if z < yearStart (yearApprox z + 2) then yearApprox z + 1
  else yearApprox z + 2

/-- Cumulative days before 0-based month `m` in a year with `l` leap days. -/
def daysBeforeMonth (l : Int) (m : Int) : Int :=
  if m ≤ 0 then 0
  else if m = 1 then 31
  else if m = 2 then 59 + l
  else if m = 3 then 90 + l
  else if m = 4 then 120 + l
  else if m = 5 then 151 + l
  else if m = 6 then 181 + l
  else if m = 7 then 212 + l
  else if m = 8 then 243 + l
  else if m = 9 then 273 + l
  else if m = 10 then 304 + l
  else if m = 11 then 334 + l
  else 365 + l

/-- Second half of the month search: the 0-based month containing day-of-year
`doy`, assuming `doy` falls in July or later. -/
def monthFromDoyLate (l : Int) (doy : Int) : Int :=
  if doy < 212 + l then 6
  else if doy < 243 + l then 7
  else if doy < 273 + l then 8
  else if doy < 304 + l then 9
  else if doy < 334 + l then 10
  else 11

/-- The 0-based month containing day-of-year `doy` in a year with `l` leap days. -/
def monthFromDoy (l : Int) (doy : Int) : Int :=
  if doy < 31 then 0
  else if doy < 59 + l then 1
  else if doy < 90 + l then 2
  else if doy < 120 + l then 3
  else if doy < 151 + l then 4
  else if doy < 181 + l then 5
  else monthFromDoyLate l doy

/-- Epoch day of the first day of linear month `k` (month index `12 * year + month`,
month 0-based).  This is the `Day(year, month, 1)` of ECMA-262. -/
def monthFirst (k : Int) : Int :=
  yearStart (k / 12) + daysBeforeMonth (leapDays (k / 12)) (k % 12)

/-- Linear month index (`12 * year + month`, month 0-based) containing epoch day `z`. -/
def mIdx (z : Int) : Int :=
  12 * yearFromDays z +
    monthFromDoy (leapDays (yearFromDays z)) (z - yearStart (yearFromDays z))

/-- An ECMAScript `Date` value: epoch day count plus the time-of-day payload
(milliseconds within the day, bundling hour, minute, second, millisecond). -/
@[ext]
structure JSDate where
  days : Int
  tod : Int
deriving DecidableEq, Repr

/-- The ECMA-262 `MakeDay(year, month, date)` operation (month 0-based and
unbounded; a day outside the target month overflows into neighbouring months). -/
def makeDay (y m dd : Int) : Int := monthFirst (12 * y + m) + (dd - 1)

/-- ECMAScript `Date.prototype.getFullYear`. -/
def jsGetFullYear (d : JSDate) : Int := mIdx d.days / 12

/-- ECMAScript `Date.prototype.getMonth` (0-based). -/
def jsGetMonth (d : JSDate) : Int := mIdx d.days % 12

/-- ECMAScript `Date.prototype.getDate` (day of month, 1-based). -/
def jsGetDate (d : JSDate) : Int := d.days - monthFirst (mIdx d.days) + 1

/-- ECMAScript `Date.prototype.getDay` (0 = Sunday; 1970-01-01 was a Thursday). -/
def jsGetDay (d : JSDate) : Int := (d.days + 4) % 7

/-- ECMAScript `Date.prototype.setDate`. -/
def jsSetDate (d : JSDate) (n : Int) : JSDate :=
  ⟨makeDay (jsGetFullYear d) (jsGetMonth d) n, d.tod⟩

/-- ECMAScript `Date.prototype.setMonth` (single-argument form). -/
def jsSetMonth (d : JSDate) (m : Int) : JSDate :=
  ⟨makeDay (jsGetFullYear d) m (jsGetDate d), d.tod⟩

/-- ECMAScript `Date.prototype.setFullYear` (single-argument form). -/
def jsSetFullYear (d : JSDate) (y : Int) : JSDate :=
  ⟨makeDay y (jsGetMonth d) (jsGetDate d), d.tod⟩

/-- The numeric value of a date (milliseconds since the epoch), the value JS
compares when dates are compared with `<` or `<=`. -/
def timestamp (d : JSDate) : Int := 86400000 * d.days + d.tod

/-- ECMAScript `setHours(0, 0, 0, 0)`: zero the time-of-day. -/
def setHours0 (d : JSDate) : JSDate := ⟨d.days, 0⟩

/-- Shift a date by a whole number of days, keeping the time-of-day. -/
def addDays (d : JSDate) (n : Int) : JSDate := ⟨d.days + n, d.tod⟩

/-- The date `y-m-d` (1-based month and day) at midnight. -/
def dateYMD (y m dd : Int) : JSDate := ⟨makeDay y (m - 1) dd, 0⟩

/-! ## Dynamically typed JS values

This models the value domain reaching `parseRecurringPattern` and
`validateRecurringPattern`.  JS numbers are restricted to the integer
fragment plus NaN; the coercion `toNumber` marks everything outside that
fragment (fractional strings, singleton arrays, objects) as NaN, which is
exact for every input exercised by the claims. -/

inductive JSValue where
  | null
  | undefined
  | bool (b : Bool)
  | nan
  | num (n : Int)
  | str (s : String)
  | arr (elems : List JSValue)
  | obj (fields : List (String × JSValue))

/-- JS truthiness: `false`, `0`, `NaN`, `""`, `null` and `undefined` are falsy;
every object (arrays included, even empty ones) is truthy. -/
def truthy : JSValue → Bool
  | .null => false
  | .undefined => false
  | .bool b => b
  | .nan => false
  | .num n => n != 0
  | .str s => s != ""
  | .arr _ => true
  | .obj _ => true

/-- Property read `v[k]` on a value that is not null/undefined: a field lookup
on objects, `undefined` on every other receiver. -/
def getField : JSValue → String → JSValue
  | .obj fields, k => (((fields.find? (fun f => f.1 == k)).map (fun f => f.2)).getD .undefined)
  | _, _ => .undefined

/-- ToNumber on an integer string: `""` is 0, an optionally signed decimal
integer is its value, everything else NaN (`none`).  Whitespace trimming and
non-integer numeric strings are outside the modelled fragment. -/
def strToInt (s : String) : Option Int :=
  if s = "" then some 0 else s.toInt?

/-- JS ToNumber restricted to the integer fragment; `none` models NaN.
Multi-element arrays and plain objects coerce to NaN in JS; the empty array
coerces to 0.  (Singleton arrays, which JS coerces through their single
element, are conservatively mapped to NaN; no claim exercises them.) -/
def toNumber : JSValue → Option Int
  | .null => some 0
  | .undefined => none
  | .bool b => some (if b then 1 else 0)
  | .nan => none
  | .num n => some n
  | .str s => strToInt s
  | .arr [] => some 0
  | .arr (_ :: _) => none
  | .obj _ => none

/-- A JS number that is either an integer or NaN. -/
inductive JSNum where
  | nan
  | val (n : Int)
deriving DecidableEq, Repr

/-- The value of `x || dflt`: `x` if truthy, otherwise `dflt`. -/
def jsOr (v dflt : JSValue) : JSValue := if truthy v then v else dflt

/-- `Math.max(a, v)` with `v` coerced by ToNumber; NaN absorbs. -/
def jsMaxNum (a : Int) (v : JSValue) : JSNum :=
  match toNumber v with
  | some n => .val (max a n)
  | none => .nan

/-- `Math.max(lo, Math.min(hi, v))` with `v` coerced by ToNumber; NaN absorbs. -/
def jsClampNum (lo hi : Int) (v : JSValue) : JSNum :=
  match toNumber v with
  | some n => .val (max lo (min hi n))
  | none => .nan

/-- The six recurrence types of the `RecurringPattern` interface. -/
inductive RecType where
  | daily | weekly | weekday | monthly | yearly | custom
deriving DecidableEq, Repr

/-- The `validTypes.includes(pattern.type) ? pattern.type : 'daily'` step:
any value other than one of the six keyword strings collapses to `daily`. -/
def decodeType : JSValue → RecType
  | .str "daily" => .daily
  | .str "weekly" => .weekly
  | .str "weekday" => .weekday
  | .str "monthly" => .monthly
  | .str "yearly" => .yearly
  | .str "custom" => .custom
  | _ => .daily

/-- The result type of `validateRecurringPattern` (source interface
`RecurringPattern`): numeric fields keep their JS nature (they can be NaN when
the input supplied a truthy value that does not coerce to a number), and
`endDate` keeps the original stored value, as in the source. -/
structure RecurringPattern where
  type : RecType
  interval : JSNum
  daysOfWeek : Option (List Int)
  dayOfMonth : Option JSNum
  month : Option JSNum
  endDate : Option JSValue

/-- The `daysOfWeek` filter of `validateRecurringPattern`:
`Number.isInteger(d) && d >= 0 && d <= 6` keeps exactly the integer-number
entries in `[0, 6]`. -/
def filterDays (xs : List JSValue) : List Int :=
  xs.filterMap (fun v =>
    match v with
    | .num n => if 0 ≤ n ∧ n ≤ 6 then some n else none
    | _ => none)

/-- The `sort((a, b) => a - b)` step: ascending numeric sort. -/
def sortDays (l : List Int) : List Int := List.insertionSort (· ≤ ·) l

/-- The `daysOfWeek` block of `validateRecurringPattern`: skipped when the
field is falsy; on a (necessarily truthy) array, filter and sort, and keep the
result only if non-empty; calling `.filter` on any other truthy value throws a
TypeError (`.error`). -/
def daysOfWeekStep (dw : JSValue) : Except Unit (Option (List Int)) :=
  if truthy dw then
    match dw with
    | .arr xs =>
      let validDays := sortDays (filterDays xs)
      .ok (if 0 < validDays.length then some validDays else none)
    | _ => .error ()
  else .ok none

/-- The body of `validateRecurringPattern` once the receiver is known not to
be `null`/`undefined` (property reads can no longer throw). -/
def validateBody (nd : JSValue → Option JSDate) (pattern : JSValue) :
    Except Unit RecurringPattern :=
  match daysOfWeekStep (getField pattern "daysOfWeek") with
  | .error e => .error e
  | .ok daysOfWeek =>
    .ok { type := decodeType (getField pattern "type"),
          interval := jsMaxNum 1 (jsOr (getField pattern "interval") (.num 1)),
          daysOfWeek := daysOfWeek,
          dayOfMonth :=
            if truthy (getField pattern "dayOfMonth") then
              some (jsClampNum 1 31 (getField pattern "dayOfMonth"))
            else none,
          month :=
            if truthy (getField pattern "month") then
              some (jsClampNum 1 12 (getField pattern "month"))
            else none,
          endDate :=
            if truthy (getField pattern "endDate") &&
                (nd (getField pattern "endDate")).isSome then
              some (getField pattern "endDate")
            else none }

/-- `validateRecurringPattern` (recurring-utils.ts, lines 32-74).  The
function throws (`.error`) exactly where the JS function throws a TypeError:
reading a property of `null`/`undefined`, and calling `.filter` on a truthy
non-array `daysOfWeek`.  `nd` abstracts `new Date(value)` (`none` = invalid). -/
def validateRecurringPattern (nd : JSValue → Option JSDate) (pattern : JSValue) :
    Except Unit RecurringPattern :=
  match pattern with
  | .null => .error ()
  | .undefined => .error ()
  | _ => validateBody nd pattern

/-- The raw input of `parseRecurringPattern`: either a value whose `typeof` is
`'object'` (objects, arrays, `null`) or a string. -/
inductive RawPatternInput where
  | objInput (v : JSValue)
  | strInput (s : String)

/-- The legacy fallback object `{ type: s, interval: 1 }`. -/
def legacyObj (s : String) : JSValue :=
  .obj [("type", .str s), ("interval", .num 1)]

/-- `parseRecurringPattern` (recurring-utils.ts, lines 13-29).  `jp` abstracts
`JSON.parse` (`none` = the string is not valid JSON, i.e. `JSON.parse` throws).
For a string, any exception inside the `try` block (a JSON parse error or a
validation TypeError on the parsed value) falls back to the legacy
interpretation of the whole string as a type keyword. -/
def parseRecurringPattern (jp : String → Option JSValue) (nd : JSValue → Option JSDate) :
    RawPatternInput → Except Unit RecurringPattern
  | .objInput v => validateRecurringPattern nd v
  | .strInput s =>
    match jp s with
    | some parsed =>
      match validateRecurringPattern nd parsed with
      | .ok p => .ok p
      | .error _ => validateRecurringPattern nd (legacyObj s)
    | none => validateRecurringPattern nd (legacyObj s)

/-- The task row as read by `isTaskActive`: the recurring flag and the raw
stored pattern text (`none` models a NULL column). -/
structure TaskRow where
  isRecurring : Bool
  recurringPattern : Option String

/-- `isTaskActive` (recurring-utils.ts, lines 191-216).  `today` stands for
`new Date()`.  The `catch` branch (fail open) is the `.error` case; comparing
against an invalid parsed end date is false, as every JS comparison with NaN. -/
def isTaskActive (jp : String → Option JSValue) (nd : JSValue → Option JSDate)
    (today : JSDate) (task : TaskRow) : Bool :=
  if !task.isRecurring then true
  else
    match task.recurringPattern with
    | none => true
    | some s =>
      if s = "" then true
      else
        match parseRecurringPattern jp nd (.strInput s) with
        | .error _ => true
        | .ok pattern =>
          match pattern.endDate with
          | none => true
          | some v =>
            if truthy v = false then true
            else
              match nd v with
              | some endDate =>
                decide (timestamp (setHours0 today) ≤ timestamp (setHours0 endDate))
              | none => false

/-! ## The occurrence calculator

`getNextOccurrence` parses the stored pattern text and then runs pure date
arithmetic.  Parsing of strings is total (proved below), so the calculator is
embedded over the image of validation: a pattern whose numeric fields are
actual integers (`RecurrencePattern`), with `endDate` represented by the date
it parses to (the validator only keeps values that parse to a valid date). -/

/-- A validated recurrence pattern as consumed by the calculator and the
summary formatter.  `interval`, `dayOfMonth`, `month` are the integer values
of the corresponding `RecurringPattern` fields; `endDate` is the parsed date
of the stored end-date value. -/
structure RecurrencePattern where
  type : RecType
  interval : Int
  daysOfWeek : Option (List Int)
  dayOfMonth : Option Int
  month : Option Int
  endDate : Option JSDate
deriving DecidableEq, Repr

/-- The task record as read by `getNextOccurrence` (the Prisma `Task` row;
the name `Task` itself is taken by the Lean core library): the recurring
flag, the anchor date (`date` column) and the stored pattern.
`recurringPattern = none` models a NULL or empty stored text, for which
`parseRecurringPattern(task.recurringPattern || '')` yields the default
`{ type: 'daily', interval: 1 }`. -/
structure TaskRecord where
  isRecurring : Bool
  date : Option JSDate
  recurringPattern : Option RecurrencePattern

/-- The pattern produced by parsing the empty string: `daily`, interval 1. -/
def defaultPattern : RecurrencePattern :=
  { type := .daily, interval := 1, daysOfWeek := none, dayOfMonth := none,
    month := none, endDate := none }

/-- `findNextDayOfWeek` (recurring-utils.ts, lines 149-163): scan `i = 0..6`
and return the base date advanced by the first `i` whose weekday
`(currentDay + i) % 7` is in `targetDays`; `none` if the scan fails. -/
def findNextDayOfWeek (baseDate : JSDate) (targetDays : List Int) : Option JSDate :=
  ((List.range 7).find?
      (fun i : Nat => targetDays.contains ((jsGetDay baseDate + (i : Int)) % 7))).map
    (fun i : Nat => jsSetDate baseDate (jsGetDate baseDate + (i : Int)))

/-- The `while (nextDate.getDay() === 0 || nextDate.getDay() === 6)` loop of
the `weekday` case: advance one day at a time until the weekday is Mon-Fri. -/
def skipWeekends (d : JSDate) : JSDate :=
  if h : jsGetDay d = 0 ∨ jsGetDay d = 6 then skipWeekends ⟨d.days + 1, d.tod⟩ else d
termination_by ((if jsGetDay d = 6 then 2 else if jsGetDay d = 0 then 1 else 0 : Nat))
decreasing_by
  simp only [jsGetDay] at *
  split_ifs <;> omega

/-- `getCustomNextOccurrence` (recurring-utils.ts, lines 166-188). -/
def getCustomNextOccurrence (lastDate : JSDate) (pattern : RecurrencePattern) :
    Option JSDate :=
  if pattern.daysOfWeek.isSome ∧ 0 < (pattern.daysOfWeek.getD []).length then
    let nd1 := jsSetDate lastDate (jsGetDate lastDate + 1)
    some ((findNextDayOfWeek nd1 (pattern.daysOfWeek.getD [])).getD nd1)
  else if pattern.dayOfMonth.getD 0 ≠ 0 then
    some (jsSetDate (jsSetMonth lastDate (jsGetMonth lastDate + 1))
      (pattern.dayOfMonth.getD 0))
  else
    some (jsSetDate lastDate (jsGetDate lastDate + 1))

/-- The `switch (pattern.type)` arithmetic of `getNextOccurrence` for the five
non-custom cases (the value of `nextDate` when control reaches the end-date
check); the `custom` arm of this helper is never consulted. -/
def nextDateByType (lastDate : JSDate) (pattern : RecurrencePattern) : JSDate :=
  match pattern.type with
  | .daily => jsSetDate lastDate (jsGetDate lastDate + pattern.interval)
  | .weekly =>
    let nextDate := jsSetDate lastDate (jsGetDate lastDate + pattern.interval * 7)
    if pattern.daysOfWeek.isSome ∧ 0 < (pattern.daysOfWeek.getD []).length then
      (findNextDayOfWeek nextDate (pattern.daysOfWeek.getD [])).getD nextDate
    else nextDate
  | .weekday => skipWeekends (jsSetDate lastDate (jsGetDate lastDate + pattern.interval))
  | .monthly =>
    let nextDate := jsSetMonth lastDate (jsGetMonth lastDate + pattern.interval)
    if pattern.dayOfMonth.getD 0 ≠ 0 then jsSetDate nextDate (pattern.dayOfMonth.getD 0)
    else nextDate
  | .yearly =>
    let d1 := jsSetFullYear lastDate (jsGetFullYear lastDate + pattern.interval)
    let d2 := if pattern.month.getD 0 ≠ 0 then jsSetMonth d1 (pattern.month.getD 0 - 1)
      else d1
    if pattern.dayOfMonth.getD 0 ≠ 0 then jsSetDate d2 (pattern.dayOfMonth.getD 0) else d2
  | .custom => lastDate

/-- The final `if (pattern.endDate && nextDate > new Date(pattern.endDate))`
check: true exactly when an end date is present and the candidate strictly
exceeds it. -/
def endDateBlocks (pattern : RecurrencePattern) (nextDate : JSDate) : Bool :=
  match pattern.endDate with
  | some ed => decide (timestamp ed < timestamp nextDate)
  | none => false

/-- `getNextOccurrence` (recurring-utils.ts, lines 77-146).  Note that the
`custom` arm returns `getCustomNextOccurrence` directly, before the end-date
check is reached. -/
def getNextOccurrence (task : TaskRecord) : Option JSDate :=
  if !task.isRecurring then none
  else
    match task.date with
    | none => none
    | some lastDate =>
      let pattern := task.recurringPattern.getD defaultPattern
      match pattern.type with
      | .custom => getCustomNextOccurrence lastDate pattern
      | _ =>
        let nextDate := nextDateByType lastDate pattern
        if endDateBlocks pattern nextDate then none else some nextDate

/-- The abbreviated day names used by `getRecurrenceSummary`. -/
def dayNames : List String := ["Sun", "Mon", "Tue", "Wed", "Thu", "Fri", "Sat"]

/-- The abbreviated month names used by `getRecurrenceSummary`. -/
def monthNames : List String :=
  ["Jan", "Feb", "Mar", "Apr", "May", "Jun", "Jul", "Aug", "Sep", "Oct", "Nov", "Dec"]

/-- JS array indexing as interpolated into a template string: out-of-range
indices read `undefined`, which renders as the string "undefined". -/
def jsIndex (names : List String) (i : Int) : String :=
  if 0 ≤ i ∧ i < (names.length : Int) then names.getD i.toNat "undefined" else "undefined"

/-- `getRecurrenceSummary` (recurring-utils.ts, lines 219-270). -/
def getRecurrenceSummary (pattern : RecurrencePattern) : String :=
  match pattern.type with
  | .daily =>
    if pattern.interval = 1 then "Daily"
    else "Every " ++ toString pattern.interval ++ " days"
  | .weekly =>
    if pattern.interval = 1 ∧ pattern.daysOfWeek.isSome then
      if (pattern.daysOfWeek.getD []).length = 7 then "Daily"
      else "Every week on " ++
        String.intercalate ", " ((pattern.daysOfWeek.getD []).map (jsIndex dayNames))
    else "Every " ++ toString pattern.interval ++ " weeks"
  | .weekday =>
    if pattern.interval = 1 then "Every weekday"
    else "Every " ++ toString pattern.interval ++ " weekdays"
  | .monthly =>
    if pattern.interval = 1 ∧ pattern.dayOfMonth.getD 0 ≠ 0 then
      "Every month on day " ++ toString (pattern.dayOfMonth.getD 0)
    else "Every " ++ toString pattern.interval ++ " months"
  | .yearly =>
    if pattern.interval = 1 ∧ pattern.month.getD 0 ≠ 0 ∧ pattern.dayOfMonth.getD 0 ≠ 0 then
      "Every year on " ++ jsIndex monthNames (pattern.month.getD 0 - 1) ++ " " ++
        toString (pattern.dayOfMonth.getD 0)
    else "Every " ++ toString pattern.interval ++ " years"
  | .custom =>
    let parts : List String :=
      (if pattern.daysOfWeek.isSome ∧ 0 < (pattern.daysOfWeek.getD []).length then
        ["on " ++ String.intercalate ", " ((pattern.daysOfWeek.getD []).map (jsIndex dayNames))]
      else []) ++
      (if pattern.dayOfMonth.getD 0 ≠ 0 then
        ["on day " ++ toString (pattern.dayOfMonth.getD 0)]
      else []) ++
      (if pattern.month.getD 0 ≠ 0 then
        ["in " ++ jsIndex monthNames (pattern.month.getD 0 - 1)]
      else [])
    let intervalStr := if 1 < pattern.interval then "every " ++ toString pattern.interval ++ " "
      else ""
    ("Custom " ++ intervalStr ++
      (if 0 < parts.length then String.intercalate " " parts else "")).trim

/-- The entries of a raw `daysOfWeek` value that survive the
integer-and-range filter (empty for any non-array value). -/
def surviving (dw : JSValue) : List Int :=
  match dw with
  | .arr xs => filterDays xs
  | _ => []

/-- The shape invariants of every pattern returned by the validator: type is
one of the six keywords by construction, `daysOfWeek` (when present) is a
non-empty sorted list of integers in [0, 6], numeric fields are clamped into
range whenever they are actual numbers (not NaN), and a kept `endDate` value
is truthy and parses to a valid date. -/
def PatternShapeOk (nd : JSValue → Option JSDate) (p : RecurringPattern) : Prop :=
  (∀ n, p.interval = .val n → 1 ≤ n) ∧
  (∀ l, p.daysOfWeek = some l → l ≠ [] ∧ l.Sorted (· ≤ ·) ∧ ∀ x ∈ l, 0 ≤ x ∧ x ≤ 6) ∧
  (∀ n, p.dayOfMonth = some (.val n) → 1 ≤ n ∧ n ≤ 31) ∧
  (∀ n, p.month = some (.val n) → 1 ≤ n ∧ n ≤ 12) ∧
  (∀ w, p.endDate = some w → truthy w = true ∧ (nd w).isSome = true)

/-- A `JSON.parse` stub for concrete witnesses: every string is treated as
invalid JSON. -/
def jpNone : String → Option JSValue := fun _ => none

/-- A date-parsing stub for concrete witnesses: every value is an invalid
date. -/
def ndNone : JSValue → Option JSDate := fun _ => none

/-- A date-parsing stub that reads a date literal directly: used by witnesses
that need a pattern with a concrete end date. -/
def ndDays : JSValue → Option JSDate
  | .num n => some ⟨n, 0⟩
  | _ => none

/-- Concrete inputs used by counterexamples and witnesses. -/
def taskC5 : TaskRecord :=
  ⟨true, some (dateYMD 2024 1 15), some ⟨.weekly, 1, some [1], none, none, none⟩⟩

/-- A custom-type task whose next occurrence strictly exceeds its end date. -/
def taskC1cex : TaskRecord :=
  ⟨true, some ⟨0, 0⟩, some ⟨.custom, 1, none, none, none, some ⟨0, 0⟩⟩⟩

/-- A daily pattern with a far-away end date, for the C1 witness. -/
def patC1w : RecurrencePattern := ⟨.daily, 1, none, none, none, some ⟨100, 0⟩⟩

/-- The task carrying `patC1w`. -/
def taskC1w : TaskRecord := ⟨true, some ⟨0, 0⟩, some patC1w⟩

/-- A daily task anchored at a date with a non-zero time-of-day payload. -/
def taskC9w : TaskRecord :=
  ⟨true, some ⟨10, 77⟩, some ⟨.daily, 2, none, none, none, none⟩⟩

/-- A monthly task anchored at 2024-01-31 with a forced day 31: the candidate
rolls through the short February. -/
def taskC10w : TaskRecord :=
  ⟨true, some (dateYMD 2024 1 31), some ⟨.monthly, 1, none, some 31, none, none⟩⟩

/-- A raw pattern whose daysOfWeek arrives unsorted. -/
def vC3w : JSValue := .obj [("daysOfWeek", .arr [.num 3, .num 1])]

/-- The validated form of `vC3w`. -/
def pC3w : RecurringPattern := ⟨.daily, .val 1, some [1, 3], none, none, none⟩

/-- A raw pattern with an out-of-range dayOfMonth. -/
def vC4dom : JSValue := .obj [("dayOfMonth", .num 45)]

/-- The validated form of `vC4dom`: day clamped to 31. -/
def pC4dom : RecurringPattern := ⟨.daily, .val 1, none, some (.val 31), none, none⟩

/-- A raw pattern with an out-of-range month. -/
def vC4mon : JSValue := .obj [("month", .num 15)]

/-- The validated form of `vC4mon`: month clamped to 12. -/
def pC4mon : RecurringPattern := ⟨.daily, .val 1, none, none, some (.val 12), none⟩

/-! ### Calendar lemmas -/

theorem yearStart_succ (y : Int) :
    yearStart (y + 1) = yearStart y + 365 + leapDays y := by
  simp only [yearStart, yearStartAux, leapDays]
  split_ifs <;> omega

theorem leapDays_bounds (y : Int) : 0 ≤ leapDays y ∧ leapDays y ≤ 1 := by
  simp only [leapDays]; split_ifs <;> omega

theorem yearApprox_lower (z : Int) : yearStart (yearApprox z - 2) ≤ z := by
  simp only [yearStart, yearStartAux, yearApprox]; omega

theorem yearApprox_upper (z : Int) : z < yearStart (yearApprox z + 3) := by
  simp only [yearStart, yearStartAux, yearApprox]; omega

theorem yearFromDays_spec (z : Int) :
    yearStart (yearFromDays z) ≤ z ∧ z < yearStart (yearFromDays z + 1) := by
  have hl := yearApprox_lower z
  have hu := yearApprox_upper z
  simp only [yearFromDays]
  split_ifs with h1 h2 h3 h4 <;> constructor <;>
    first
      | omega
      | (simp only [show yearApprox z - 2 + 1 = yearApprox z - 1 by ring,
          show yearApprox z - 1 + 1 = yearApprox z by ring,
          show yearApprox z + 1 + 1 = yearApprox z + 2 by ring,
          show yearApprox z + 2 + 1 = yearApprox z + 3 by ring] at *; omega)

theorem daysBeforeMonth_zero (l : Int) : daysBeforeMonth l 0 = 0 := rfl

theorem dBM1 (l : Int) : daysBeforeMonth l 1 = 31 := by norm_num [daysBeforeMonth]

theorem dBM2 (l : Int) : daysBeforeMonth l 2 = 59 + l := by norm_num [daysBeforeMonth]

theorem dBM3 (l : Int) : daysBeforeMonth l 3 = 90 + l := by norm_num [daysBeforeMonth]

theorem dBM4 (l : Int) : daysBeforeMonth l 4 = 120 + l := by norm_num [daysBeforeMonth]

theorem dBM5 (l : Int) : daysBeforeMonth l 5 = 151 + l := by norm_num [daysBeforeMonth]

theorem dBM6 (l : Int) : daysBeforeMonth l 6 = 181 + l := by norm_num [daysBeforeMonth]

theorem dBM7 (l : Int) : daysBeforeMonth l 7 = 212 + l := by norm_num [daysBeforeMonth]

theorem dBM8 (l : Int) : daysBeforeMonth l 8 = 243 + l := by norm_num [daysBeforeMonth]

theorem dBM9 (l : Int) : daysBeforeMonth l 9 = 273 + l := by norm_num [daysBeforeMonth]

theorem dBM10 (l : Int) : daysBeforeMonth l 10 = 304 + l := by norm_num [daysBeforeMonth]

theorem dBM11 (l : Int) : daysBeforeMonth l 11 = 334 + l := by norm_num [daysBeforeMonth]

theorem dBM12 (l : Int) : daysBeforeMonth l 12 = 365 + l := by norm_num [daysBeforeMonth]

theorem month_table_late (l doy : Int) (h0 : 181 + l ≤ doy) (h1 : doy < 365 + l)
    (hl : 0 ≤ l) :
    6 ≤ monthFromDoyLate l doy ∧ monthFromDoyLate l doy ≤ 11 ∧
    daysBeforeMonth l (monthFromDoyLate l doy) ≤ doy ∧
    doy < daysBeforeMonth l (monthFromDoyLate l doy + 1) := by
  generalize hM : monthFromDoyLate l doy = m
  simp only [monthFromDoyLate] at hM
  split_ifs at hM <;> subst hM <;>
    refine ⟨by norm_num, by norm_num, ?_, ?_⟩ <;>
    simp only [show (6:Int)+1 = 7 by norm_num, show (7:Int)+1 = 8 by norm_num,
      show (8:Int)+1 = 9 by norm_num, show (9:Int)+1 = 10 by norm_num,
      show (10:Int)+1 = 11 by norm_num, show (11:Int)+1 = 12 by norm_num,
      dBM6, dBM7, dBM8, dBM9, dBM10, dBM11, dBM12] <;> omega

theorem month_table (l doy : Int) (h0 : 0 ≤ doy) (h1 : doy < 365 + l) (hl : 0 ≤ l) :
    0 ≤ monthFromDoy l doy ∧ monthFromDoy l doy ≤ 11 ∧
    daysBeforeMonth l (monthFromDoy l doy) ≤ doy ∧
    doy < daysBeforeMonth l (monthFromDoy l doy + 1) := by
  generalize hM : monthFromDoy l doy = m
  simp only [monthFromDoy] at hM
  split_ifs at hM with g1 g2 g3 g4 g5 g6
  case _ =>
    subst hM
    refine ⟨by norm_num, by norm_num, ?_, ?_⟩ <;>
      simp only [show (0:Int)+1 = 1 by norm_num, daysBeforeMonth_zero, dBM1] <;> omega
  case _ =>
    subst hM
    refine ⟨by norm_num, by norm_num, ?_, ?_⟩ <;>
      simp only [show (1:Int)+1 = 2 by norm_num, dBM1, dBM2] <;> omega
  case _ =>
    subst hM
    refine ⟨by norm_num, by norm_num, ?_, ?_⟩ <;>
      simp only [show (2:Int)+1 = 3 by norm_num, dBM2, dBM3] <;> omega
  case _ =>
    subst hM
    refine ⟨by norm_num, by norm_num, ?_, ?_⟩ <;>
      simp only [show (3:Int)+1 = 4 by norm_num, dBM3, dBM4] <;> omega
  case _ =>
    subst hM
    refine ⟨by norm_num, by norm_num, ?_, ?_⟩ <;>
      simp only [show (4:Int)+1 = 5 by norm_num, dBM4, dBM5] <;> omega
  case _ =>
    subst hM
    refine ⟨by norm_num, by norm_num, ?_, ?_⟩ <;>
      simp only [show (5:Int)+1 = 6 by norm_num, dBM5, dBM6] <;> omega
  case _ =>
    have hlate := month_table_late l doy (by omega) h1 hl
    rw [hM] at hlate
    omega

theorem month_glue (z y l m : Int) (hl : l = leapDays y)
    (hy1 : yearStart y ≤ z) (hy2 : z < yearStart (y + 1))
    (hm0 : 0 ≤ m) (hm11 : m ≤ 11)
    (hd1 : daysBeforeMonth l m ≤ z - yearStart y)
    (hd2 : z - yearStart y < daysBeforeMonth l (m + 1)) :
    monthFirst (12 * y + m) ≤ z ∧ z < monthFirst (12 * y + m + 1) := by
  have e1 : (12 * y + m) / 12 = y := by omega
  have e2 : (12 * y + m) % 12 = m := by omega
  constructor
  · simp only [monthFirst, e1, e2, ← hl]
    omega
  · by_cases hm : m = 11
    · have e3 : (12 * y + m + 1) / 12 = y + 1 := by omega
      have e4 : (12 * y + m + 1) % 12 = 0 := by omega
      simp only [monthFirst, e3, e4, daysBeforeMonth_zero]
      omega
    · have e3 : (12 * y + m + 1) / 12 = y := by omega
      have e4 : (12 * y + m + 1) % 12 = m + 1 := by omega
      simp only [monthFirst, e3, e4, ← hl]
      omega

theorem core_sandwich (z : Int) :
    monthFirst (mIdx z) ≤ z ∧ z < monthFirst (mIdx z + 1) := by
  obtain ⟨hy1, hy2⟩ := yearFromDays_spec z
  obtain ⟨hl0, hl1⟩ := leapDays_bounds (yearFromDays z)
  have hsucc := yearStart_succ (yearFromDays z)
  obtain ⟨hm0, hm11, hd1, hd2⟩ :=
    month_table (leapDays (yearFromDays z)) (z - yearStart (yearFromDays z))
      (by omega) (by omega) hl0
  simpa only [mIdx] using
    month_glue z (yearFromDays z) (leapDays (yearFromDays z))
      (monthFromDoy (leapDays (yearFromDays z)) (z - yearStart (yearFromDays z)))
      rfl hy1 hy2 hm0 hm11 hd1 hd2

theorem dBM_succ (l m : Int) (hl : 0 ≤ l) (h0 : 0 ≤ m) (h1 : m ≤ 10) :
    daysBeforeMonth l m + 28 ≤ daysBeforeMonth l (m + 1) := by
  interval_cases m <;>
    simp only [show (0:Int)+1 = 1 by norm_num, show (1:Int)+1 = 2 by norm_num,
      show (2:Int)+1 = 3 by norm_num, show (3:Int)+1 = 4 by norm_num,
      show (4:Int)+1 = 5 by norm_num, show (5:Int)+1 = 6 by norm_num,
      show (6:Int)+1 = 7 by norm_num, show (7:Int)+1 = 8 by norm_num,
      show (8:Int)+1 = 9 by norm_num, show (9:Int)+1 = 10 by norm_num,
      show (10:Int)+1 = 11 by norm_num,
      daysBeforeMonth_zero, dBM1, dBM2, dBM3, dBM4, dBM5, dBM6, dBM7, dBM8,
      dBM9, dBM10, dBM11] <;> omega

theorem monthFirst_succ_ge (k : Int) : monthFirst k + 28 ≤ monthFirst (k + 1) := by
  have hm0 : 0 ≤ k % 12 := by omega
  have hm1 : k % 12 < 12 := by omega
  by_cases hm : k % 12 = 11
  · have e3 : (k + 1) / 12 = k / 12 + 1 := by omega
    have e4 : (k + 1) % 12 = 0 := by omega
    have hs := yearStart_succ (k / 12)
    have hlb := leapDays_bounds (k / 12)
    simp only [monthFirst, e3, e4, hm, daysBeforeMonth_zero, dBM11]
    omega
  · have e3 : (k + 1) / 12 = k / 12 := by omega
    have e4 : (k + 1) % 12 = k % 12 + 1 := by omega
    have hd := dBM_succ (leapDays (k / 12)) (k % 12) (leapDays_bounds (k / 12)).1
      (by omega) (by omega)
    simp only [monthFirst, e3, e4]
    omega

theorem monthFirst_lt_add (k : Int) : ∀ n : Nat, monthFirst k < monthFirst (k + 1 + n) := by
  intro n
  induction n with
  | zero =>
    have h2 := monthFirst_succ_ge k
    have e : k + 1 + ((0 : Nat) : Int) = k + 1 := by push_cast; ring
    rw [e]; omega
  | succ n ih =>
    have h2 := monthFirst_succ_ge (k + 1 + (n : Int))
    have e : k + 1 + ((n + 1 : Nat) : Int) = k + 1 + (n : Int) + 1 := by push_cast; ring
    rw [e]; omega

theorem monthFirst_lt {k k2 : Int} (h : k < k2) : monthFirst k < monthFirst k2 := by
  have e : k2 = k + 1 + ((k2 - k - 1).toNat : Int) := by omega
  rw [e]; exact monthFirst_lt_add k _

theorem monthFirst_le {k k2 : Int} (h : k ≤ k2) : monthFirst k ≤ monthFirst k2 := by
  rcases eq_or_lt_of_le h with he | hlt
  · rw [he]
  · exact le_of_lt (monthFirst_lt hlt)

theorem mIdx_ge {k w : Int} (h : monthFirst k ≤ w) : k ≤ mIdx w := by
  by_contra hc
  push_neg at hc
  have h2 : monthFirst (mIdx w + 1) ≤ monthFirst k := monthFirst_le (by omega)
  have h3 := (core_sandwich w).2
  omega

theorem mIdx_split (d : JSDate) : 12 * jsGetFullYear d + jsGetMonth d = mIdx d.days := by
  simp only [jsGetFullYear, jsGetMonth]; omega

theorem jsSetDate_days (d : JSDate) (n : Int) :
    (jsSetDate d n).days = monthFirst (mIdx d.days) + (n - 1) := by
  simp only [jsSetDate, makeDay, mIdx_split]

theorem jsSetDate_tod (d : JSDate) (n : Int) : (jsSetDate d n).tod = d.tod := rfl

theorem jsSetMonth_tod (d : JSDate) (m : Int) : (jsSetMonth d m).tod = d.tod := rfl

theorem jsSetFullYear_tod (d : JSDate) (y : Int) : (jsSetFullYear d y).tod = d.tod := rfl

theorem jsGetDate_eq (d : JSDate) : jsGetDate d = d.days - monthFirst (mIdx d.days) + 1 := rfl

theorem jsSetDate_getDate_add (d : JSDate) (k : Int) :
    jsSetDate d (jsGetDate d + k) = addDays d k := by
  ext
  · simp only [jsSetDate_days, addDays, jsGetDate_eq]; omega
  · rfl

theorem jsSetMonth_days (d : JSDate) (m : Int) :
    (jsSetMonth d m).days =
      monthFirst (12 * (mIdx d.days / 12) + m) + (d.days - monthFirst (mIdx d.days)) := by
  simp only [jsSetMonth, makeDay, jsGetFullYear, jsGetDate]
  omega

theorem jsSetFullYear_days (d : JSDate) (y : Int) :
    (jsSetFullYear d y).days =
      monthFirst (12 * y + mIdx d.days % 12) + (d.days - monthFirst (mIdx d.days)) := by
  simp only [jsSetFullYear, makeDay, jsGetMonth, jsGetDate]
  omega

/-! ### Concrete calendar sanity checks -/

theorem dateYMD_epoch : dateYMD 1970 1 1 = ⟨0, 0⟩ := by decide

theorem mIdx_epoch : mIdx 0 = 23640 := by decide

theorem dateYMD_20240115 : dateYMD 2024 1 15 = ⟨19737, 0⟩ := by decide

theorem jsGetDay_20240115 : jsGetDay (dateYMD 2024 1 15) = 1 := by decide

/-! ### Parser and validator lemmas -/

theorem sortDays_sorted (l : List Int) : (sortDays l).Sorted (· ≤ ·) :=
  List.sorted_insertionSort _ l
theorem sortDays_mem (l : List Int) (a : Int) : a ∈ sortDays l ↔ a ∈ l :=
  (List.perm_insertionSort _ l).mem_iff
theorem filterDays_bounds (xs : List JSValue) (n : Int) (h : n ∈ filterDays xs) :
    0 ≤ n ∧ n ≤ 6 := by
  simp only [filterDays, List.mem_filterMap] at h
  obtain ⟨v, _, hv⟩ := h
  cases v <;> simp at hv
  omega
theorem daysOfWeekStep_some (dw : JSValue) (o : Option (List Int)) (l : List Int)
    (h : daysOfWeekStep dw = .ok o) (ho : o = some l) :
    l ≠ [] ∧ l.Sorted (· ≤ ·) ∧ ∀ x ∈ l, 0 ≤ x ∧ x ≤ 6 := by
  subst ho
  simp only [daysOfWeekStep] at h
  split_ifs at h with ht
  · cases dw <;> simp at h
    rename_i xs
    obtain ⟨hlen, rfl⟩ := h
    refine ⟨?_, sortDays_sorted _, ?_⟩
    · intro hnil; rw [hnil] at hlen; simp at hlen
    · intro x hx; exact filterDays_bounds xs x ((sortDays_mem _ _).mp hx)
  · simp at h

theorem jsMaxNum_ge (a : Int) (v : JSValue) (n : Int) (h : jsMaxNum a v = .val n) :
    a ≤ n := by
  simp only [jsMaxNum] at h
  cases hv : toNumber v <;> rw [hv] at h
  · exact absurd h (by simp)
  · simp at h; omega

theorem jsClampNum_mem (lo hi : Int) (v : JSValue) (n : Int) (hlh : lo ≤ hi)
    (h : jsClampNum lo hi v = .val n) : lo ≤ n ∧ n ≤ hi := by
  simp only [jsClampNum] at h
  cases hv : toNumber v <;> rw [hv] at h
  · exact absurd h (by simp)
  · simp at h; omega

theorem validateBody_inv (nd : JSValue → Option JSDate) (v : JSValue)
    (p : RecurringPattern) (h : validateBody nd v = .ok p) : PatternShapeOk nd p := by
  simp only [validateBody] at h
  cases hstep : daysOfWeekStep (getField v "daysOfWeek") with
  | error e => rw [hstep] at h; simp at h
  | ok o =>
    rw [hstep] at h
    simp only [Except.ok.injEq] at h
    subst h
    refine ⟨?_, ?_, ?_, ?_, ?_⟩
    · intro n hn
      exact jsMaxNum_ge 1 _ n hn
    · intro l hl
      exact daysOfWeekStep_some _ o l hstep hl
    · intro n hn
      simp only at hn
      split_ifs at hn with ht
      simp at hn
      exact jsClampNum_mem 1 31 _ n (by norm_num) hn
    · intro n hn
      simp only at hn
      split_ifs at hn with ht
      simp at hn
      exact jsClampNum_mem 1 12 _ n (by norm_num) hn
    · intro w hw
      simp only at hw
      split_ifs at hw with ht
      simp at hw
      subst hw
      simpa using ht

theorem validate_eq_body (nd : JSValue → Option JSDate) (v : JSValue)
    (h1 : v ≠ .null) (h2 : v ≠ .undefined) :
    validateRecurringPattern nd v = validateBody nd v := by
  cases v <;> first
    | exact absurd rfl h1
    | exact absurd rfl h2
    | rfl

theorem validate_inv (nd : JSValue → Option JSDate) (v : JSValue)
    (p : RecurringPattern) (h : validateRecurringPattern nd v = .ok p) :
    PatternShapeOk nd p := by
  cases v <;> simp only [validateRecurringPattern] at h <;>
    first
      | exact validateBody_inv nd _ p h
      | simp at h

theorem legacy_ok (nd : JSValue → Option JSDate) (s : String) :
    validateRecurringPattern nd (legacyObj s) =
      .ok { type := decodeType (.str s), interval := .val 1, daysOfWeek := none,
            dayOfMonth := none, month := none, endDate := none } := rfl

theorem parse_str_ok (jp : String → Option JSValue) (nd : JSValue → Option JSDate)
    (s : String) :
    ∃ p, parseRecurringPattern jp nd (.strInput s) = .ok p ∧ PatternShapeOk nd p := by
  cases hjp : jp s with
  | none =>
    refine ⟨_, ?_, validate_inv nd (legacyObj s) _ (legacy_ok nd s)⟩
    simp only [parseRecurringPattern, hjp]
    exact legacy_ok nd s
  | some parsed =>
    cases hval : validateRecurringPattern nd parsed with
    | ok q =>
      refine ⟨q, ?_, validate_inv nd parsed q hval⟩
      simp only [parseRecurringPattern, hjp, hval]
    | error e =>
      refine ⟨_, ?_, validate_inv nd (legacyObj s) _ (legacy_ok nd s)⟩
      simp only [parseRecurringPattern, hjp, hval]
      exact legacy_ok nd s

theorem parse_endDate_inv (jp : String → Option JSValue) (nd : JSValue → Option JSDate)
    (input : RawPatternInput) (p : RecurringPattern)
    (h : parseRecurringPattern jp nd input = .ok p) :
    ∀ w, p.endDate = some w → truthy w = true ∧ (nd w).isSome = true := by
  cases input with
  | objInput v => exact (validate_inv nd v p h).2.2.2.2
  | strInput s =>
    cases hjp : jp s with
    | none =>
      simp only [parseRecurringPattern, hjp] at h
      exact (validate_inv nd (legacyObj s) p h).2.2.2.2
    | some parsed =>
      cases hval : validateRecurringPattern nd parsed with
      | error e =>
        simp only [parseRecurringPattern, hjp, hval] at h
        exact (validate_inv nd (legacyObj s) p h).2.2.2.2
      | ok q =>
        simp only [parseRecurringPattern, hjp, hval, Except.ok.injEq] at h
        subst h
        exact (validate_inv nd parsed q hval).2.2.2.2

/-! ### Calculator lemmas -/

theorem addDays_tod (d : JSDate) (n : Int) : (addDays d n).tod = d.tod := rfl

theorem jsGetDay_addDays (d : JSDate) (j : Nat) :
    jsGetDay (addDays d j) = (jsGetDay d + j) % 7 := by
  simp only [jsGetDay, addDays]
  omega

theorem find7_total (p : Nat → Bool) (i : Nat) (hi : i < 7) (hp : p i = true) :
    ((List.range 7).find? p).isSome = true := by
  rw [List.find?_isSome]
  exact ⟨i, by simp [List.mem_range, hi], hp⟩

theorem find7_spec (p : Nat → Bool) (i : Nat) (h : (List.range 7).find? p = some i) :
    p i = true ∧ i < 7 ∧ ∀ j, j < i → p j = false := by
  have e : List.range 7 = [0, 1, 2, 3, 4, 5, 6] := rfl
  rw [e] at h
  by_cases h0 : p 0 = true
  · rw [List.find?_cons_of_pos _ h0] at h
    obtain rfl : (0 : Nat) = i := by simpa using h
    exact ⟨h0, by norm_num, fun j hj => absurd hj (by omega)⟩
  · rw [List.find?_cons_of_neg _ h0] at h
    by_cases h1 : p 1 = true
    · rw [List.find?_cons_of_pos _ h1] at h
      obtain rfl : (1 : Nat) = i := by simpa using h
      refine ⟨h1, by norm_num, fun j hj => ?_⟩
      interval_cases j
      · simpa using h0
    · rw [List.find?_cons_of_neg _ h1] at h
      by_cases h2 : p 2 = true
      · rw [List.find?_cons_of_pos _ h2] at h
        obtain rfl : (2 : Nat) = i := by simpa using h
        refine ⟨h2, by norm_num, fun j hj => ?_⟩
        interval_cases j
        · simpa using h0
        · simpa using h1
      · rw [List.find?_cons_of_neg _ h2] at h
        by_cases h3 : p 3 = true
        · rw [List.find?_cons_of_pos _ h3] at h
          obtain rfl : (3 : Nat) = i := by simpa using h
          refine ⟨h3, by norm_num, fun j hj => ?_⟩
          interval_cases j
          · simpa using h0
          · simpa using h1
          · simpa using h2
        · rw [List.find?_cons_of_neg _ h3] at h
          by_cases h4 : p 4 = true
          · rw [List.find?_cons_of_pos _ h4] at h
            obtain rfl : (4 : Nat) = i := by simpa using h
            refine ⟨h4, by norm_num, fun j hj => ?_⟩
            interval_cases j
            · simpa using h0
            · simpa using h1
            · simpa using h2
            · simpa using h3
          · rw [List.find?_cons_of_neg _ h4] at h
            by_cases h5 : p 5 = true
            · rw [List.find?_cons_of_pos _ h5] at h
              obtain rfl : (5 : Nat) = i := by simpa using h
              refine ⟨h5, by norm_num, fun j hj => ?_⟩
              interval_cases j
              · simpa using h0
              · simpa using h1
              · simpa using h2
              · simpa using h3
              · simpa using h4
            · rw [List.find?_cons_of_neg _ h5] at h
              by_cases h6 : p 6 = true
              · rw [List.find?_cons_of_pos _ h6] at h
                obtain rfl : (6 : Nat) = i := by simpa using h
                refine ⟨h6, by norm_num, fun j hj => ?_⟩
                interval_cases j
                · simpa using h0
                · simpa using h1
                · simpa using h2
                · simpa using h3
                · simpa using h4
                · simpa using h5
              · rw [List.find?_cons_of_neg _ h6] at h
                simp at h

theorem findNextDayOfWeek_some (b : JSDate) (t : List Int) (r : JSDate)
    (h : findNextDayOfWeek b t = some r) :
    ∃ i : Nat, i < 7 ∧ r = addDays b i ∧
      t.contains (jsGetDay (addDays b i)) = true ∧
      ∀ j : Nat, j < i → t.contains (jsGetDay (addDays b j)) = false := by
  simp only [findNextDayOfWeek, Option.map_eq_some'] at h
  obtain ⟨i, hfind, hr⟩ := h
  obtain ⟨hp, hi7, hmin⟩ := find7_spec _ i hfind
  refine ⟨i, hi7, ?_, ?_, ?_⟩
  · rw [← hr]
    exact jsSetDate_getDate_add b i
  · rw [jsGetDay_addDays]
    exact hp
  · intro j hj
    rw [jsGetDay_addDays]
    exact hmin j hj

theorem findNextDayOfWeek_isSome (b : JSDate) (t : List Int)
    (hne : t ≠ []) (hb : ∀ d ∈ t, 0 ≤ d ∧ d ≤ 6) :
    (findNextDayOfWeek b t).isSome = true := by
  obtain ⟨d, hd⟩ := List.exists_mem_of_ne_nil t hne
  obtain ⟨hd0, hd6⟩ := hb d hd
  simp only [findNextDayOfWeek, Option.isSome_map']
  refine find7_total _ ((d - jsGetDay b) % 7).toNat ?_ ?_
  · simp only [jsGetDay]
    omega
  · have he : (jsGetDay b + (((d - jsGetDay b) % 7).toNat : Int)) % 7 = d := by
      simp only [jsGetDay]
      omega
    rw [he]
    exact List.elem_iff.mpr hd

theorem skipWeekends_tod (d : JSDate) : (skipWeekends d).tod = d.tod := by
  induction d using skipWeekends.induct with
  | case1 d h ih => rw [skipWeekends]; simp [h]; exact ih
  | case2 d h => rw [skipWeekends]; simp [h]

theorem skipWeekends_ge (d : JSDate) : d.days ≤ (skipWeekends d).days := by
  induction d using skipWeekends.induct with
  | case1 d h ih =>
    rw [skipWeekends]
    simp only [h, dite_true, dif_pos]
    simp at ih ⊢
    omega
  | case2 d h => rw [skipWeekends]; simp [h]

theorem setMonth_add_progress (ld : JSDate) (i : Int) (hi : 1 ≤ i) :
    ld.days < (jsSetMonth ld (jsGetMonth ld + i)).days ∧
    monthFirst (mIdx ld.days + 1) ≤ (jsSetMonth ld (jsGetMonth ld + i)).days := by
  have hd := jsSetMonth_days ld (jsGetMonth ld + i)
  have harg : 12 * (mIdx ld.days / 12) + (jsGetMonth ld + i) = mIdx ld.days + i := by
    simp only [jsGetMonth]
    omega
  rw [harg] at hd
  have hcore := (core_sandwich ld.days).1
  have hmono : monthFirst (mIdx ld.days) < monthFirst (mIdx ld.days + i) :=
    monthFirst_lt (by omega)
  have hmono2 : monthFirst (mIdx ld.days + 1) ≤ monthFirst (mIdx ld.days + i) :=
    monthFirst_le (by omega)
  omega

theorem setDate_keeps_bound (w : JSDate) (dd b : Int) (hdd : 1 ≤ dd)
    (hw : monthFirst b ≤ w.days) : monthFirst b ≤ (jsSetDate w dd).days := by
  have hd := jsSetDate_days w dd
  have h1 : b ≤ mIdx w.days := mIdx_ge hw
  have h2 : monthFirst b ≤ monthFirst (mIdx w.days) := monthFirst_le h1
  omega

theorem setFullYear_add_progress (ld : JSDate) (i : Int) (hi : 1 ≤ i) :
    monthFirst (mIdx ld.days + 12) ≤ (jsSetFullYear ld (jsGetFullYear ld + i)).days := by
  have hd := jsSetFullYear_days ld (jsGetFullYear ld + i)
  have harg : 12 * (jsGetFullYear ld + i) + mIdx ld.days % 12 = mIdx ld.days + 12 * i := by
    simp only [jsGetFullYear]
    omega
  rw [harg] at hd
  have hcore := (core_sandwich ld.days).1
  have hmono : monthFirst (mIdx ld.days + 12) ≤ monthFirst (mIdx ld.days + 12 * i) :=
    monthFirst_le (by omega)
  omega

theorem setMonth_sub_keeps_year (d1 : JSDate) (m b : Int) (hm1 : 1 ≤ m)
    (hbase : monthFirst (12 * b) ≤ d1.days) :
    monthFirst (12 * b) ≤ (jsSetMonth d1 (m - 1)).days := by
  have hd := jsSetMonth_days d1 (m - 1)
  have h1 : 12 * b ≤ mIdx d1.days := mIdx_ge hbase
  have hcore := (core_sandwich d1.days).1
  have h2 : monthFirst (12 * b) ≤ monthFirst (12 * (mIdx d1.days / 12) + (m - 1)) :=
    monthFirst_le (by omega)
  omega

theorem monthly_forced_progress (ld : JSDate) (i dd : Int) (hi : 1 ≤ i) (hdd : 1 ≤ dd) :
    ld.days < (jsSetDate (jsSetMonth ld (jsGetMonth ld + i)) dd).days := by
  obtain ⟨h1, h2⟩ := setMonth_add_progress ld i hi
  have h3 := setDate_keeps_bound (jsSetMonth ld (jsGetMonth ld + i)) dd
    (mIdx ld.days + 1) hdd h2
  have hcore := (core_sandwich ld.days).2
  omega

theorem nextDateByType_tod (ld : JSDate) (p : RecurrencePattern) :
    (nextDateByType ld p).tod = ld.tod := by
  cases hty : p.type <;> simp only [nextDateByType, hty]
  case daily => exact jsSetDate_tod ld _
  case weekly =>
    split_ifs with hc
    · cases hfind : findNextDayOfWeek (jsSetDate ld (jsGetDate ld + p.interval * 7))
          (p.daysOfWeek.getD []) with
      | none => simp [jsSetDate_tod]
      | some r =>
        obtain ⟨i, _, hr, _, _⟩ := findNextDayOfWeek_some _ _ _ hfind
        simp only [Option.getD_some, hr, addDays_tod, jsSetDate_tod]
    · exact jsSetDate_tod ld _
  case weekday => rw [skipWeekends_tod]; exact jsSetDate_tod ld _
  case monthly => split_ifs <;> simp [jsSetDate_tod, jsSetMonth_tod]
  case yearly => split_ifs <;> simp [jsSetDate_tod, jsSetMonth_tod, jsSetFullYear_tod]

theorem nextDateByType_lt (ld : JSDate) (p : RecurrencePattern)
    (hi : 1 ≤ p.interval)
    (hdd : ∀ dv, p.dayOfMonth = some dv → 1 ≤ dv)
    (hm : ∀ mv, p.month = some mv → 1 ≤ mv ∧ mv ≤ 12)
    (hnc : p.type ≠ RecType.custom) :
    ld.days < (nextDateByType ld p).days := by
  have hdd0 : p.dayOfMonth.getD 0 ≠ 0 → 1 ≤ p.dayOfMonth.getD 0 := by
    cases hv : p.dayOfMonth with
    | none => simp
    | some dv => simp only [Option.getD_some]; exact fun _ => hdd dv hv
  have hm0 : p.month.getD 0 ≠ 0 → 1 ≤ p.month.getD 0 ∧ p.month.getD 0 ≤ 12 := by
    cases hv : p.month with
    | none => simp
    | some mv => simp only [Option.getD_some]; exact fun _ => hm mv hv
  cases hty : p.type <;> simp only [nextDateByType, hty]
  case daily =>
    rw [jsSetDate_getDate_add]
    simp only [addDays]
    omega
  case weekly =>
    have hcand := jsSetDate_getDate_add ld (p.interval * 7)
    split_ifs with hc
    · cases hfind : findNextDayOfWeek (jsSetDate ld (jsGetDate ld + p.interval * 7))
          (p.daysOfWeek.getD []) with
      | none =>
        simp only [hfind, Option.getD_none, hcand, addDays]
        omega
      | some r =>
        obtain ⟨i, _, hr, _, _⟩ := findNextDayOfWeek_some _ _ _ hfind
        simp only [hfind, Option.getD_some, hr, hcand, addDays]
        omega
    · rw [hcand]
      simp only [addDays]
      omega
  case weekday =>
    rw [jsSetDate_getDate_add]
    have hs := skipWeekends_ge (addDays ld p.interval)
    simp only [addDays] at hs ⊢
    omega
  case monthly =>
    split_ifs with hc
    · exact monthly_forced_progress ld p.interval (p.dayOfMonth.getD 0) hi (hdd0 hc)
    · exact (setMonth_add_progress ld p.interval hi).1
  case yearly =>
    have hd1 := setFullYear_add_progress ld p.interval hi
    have hcore := (core_sandwich ld.days).2
    have hstep : monthFirst (mIdx ld.days + 1) ≤ monthFirst (mIdx ld.days + 12) :=
      monthFirst_le (by omega)
    have hb : monthFirst (12 * (mIdx ld.days / 12 + 1)) ≤
        (jsSetFullYear ld (jsGetFullYear ld + p.interval)).days := by
      have := monthFirst_le
        (show 12 * (mIdx ld.days / 12 + 1) ≤ mIdx ld.days + 12 by omega)
      omega
    have h4 : monthFirst (mIdx ld.days + 1) ≤ monthFirst (12 * (mIdx ld.days / 12 + 1)) :=
      monthFirst_le (by omega)
    split_ifs with hcd hcm hcm2
    · obtain ⟨hm1, _⟩ := hm0 hcm
      have h2 := setMonth_sub_keeps_year _ (p.month.getD 0) (mIdx ld.days / 12 + 1) hm1 hb
      have h3 := setDate_keeps_bound _ (p.dayOfMonth.getD 0)
        (12 * (mIdx ld.days / 12 + 1)) (hdd0 hcd) h2
      omega
    · have h3 := setDate_keeps_bound _ (p.dayOfMonth.getD 0) (mIdx ld.days + 12)
        (hdd0 hcd) hd1
      omega
    · obtain ⟨hm1, _⟩ := hm0 hcm2
      have h2 := setMonth_sub_keeps_year _ (p.month.getD 0) (mIdx ld.days / 12 + 1) hm1 hb
      omega
    · omega
  case custom => exact absurd hty hnc

theorem getCustom_spec (ld : JSDate) (p : RecurrencePattern) (r : JSDate)
    (hdd : ∀ dv, p.dayOfMonth = some dv → 1 ≤ dv)
    (h : getCustomNextOccurrence ld p = some r) :
    ld.days < r.days ∧ r.tod = ld.tod := by
  have hdd0 : p.dayOfMonth.getD 0 ≠ 0 → 1 ≤ p.dayOfMonth.getD 0 := by
    cases hv : p.dayOfMonth with
    | none => simp
    | some dv => simp only [Option.getD_some]; exact fun _ => hdd dv hv
  simp only [getCustomNextOccurrence] at h
  split_ifs at h with h1 h2
  · simp only [Option.some.injEq] at h
    subst h
    have hnd1 := jsSetDate_getDate_add ld 1
    cases hfind : findNextDayOfWeek (jsSetDate ld (jsGetDate ld + 1))
        (p.daysOfWeek.getD []) with
    | none =>
      simp only [hfind, Option.getD_none, hnd1, addDays]
      exact ⟨by omega, trivial⟩
    | some q =>
      obtain ⟨i, _, hq, _, _⟩ := findNextDayOfWeek_some _ _ _ hfind
      rw [hnd1] at hq
      simp only [hfind, Option.getD_some, hq, addDays]
      exact ⟨by omega, trivial⟩
  · simp only [Option.some.injEq] at h
    subst h
    refine ⟨monthly_forced_progress ld 1 (p.dayOfMonth.getD 0) (by norm_num) (hdd0 h2), ?_⟩
    simp [jsSetDate_tod, jsSetMonth_tod]
  · simp only [Option.some.injEq] at h
    subst h
    rw [jsSetDate_getDate_add]
    exact ⟨by simp only [addDays]; omega, rfl⟩

theorem getCustom_tod (ld : JSDate) (p : RecurrencePattern) (r : JSDate)
    (h : getCustomNextOccurrence ld p = some r) : r.tod = ld.tod := by
  simp only [getCustomNextOccurrence] at h
  split_ifs at h with h1 h2
  · simp only [Option.some.injEq] at h
    subst h
    cases hfind : findNextDayOfWeek (jsSetDate ld (jsGetDate ld + 1))
        (p.daysOfWeek.getD []) with
    | none => simp [hfind, jsSetDate_tod]
    | some q =>
      obtain ⟨i, _, hq, _, _⟩ := findNextDayOfWeek_some _ _ _ hfind
      simp only [hfind, Option.getD_some, hq, addDays_tod, jsSetDate_tod]
  · simp only [Option.some.injEq] at h
    subst h
    simp [jsSetDate_tod, jsSetMonth_tod]
  · simp only [Option.some.injEq] at h
    subst h
    simp [jsSetDate_tod]

theorem validateBody_dw (nd : JSValue → Option JSDate) (v : JSValue)
    (p : RecurringPattern) (h : validateBody nd v = .ok p) :
    ∃ o, daysOfWeekStep (getField v "daysOfWeek") = .ok o ∧ p.daysOfWeek = o := by
  simp only [validateBody] at h
  cases hstep : daysOfWeekStep (getField v "daysOfWeek") with
  | error e => rw [hstep] at h; simp at h
  | ok o =>
    rw [hstep] at h
    simp only [Except.ok.injEq] at h
    subst h
    exact ⟨o, rfl, rfl⟩

theorem validate_dw (nd : JSValue → Option JSDate) (v : JSValue)
    (p : RecurringPattern) (h : validateRecurringPattern nd v = .ok p) :
    ∃ o, daysOfWeekStep (getField v "daysOfWeek") = .ok o ∧ p.daysOfWeek = o := by
  cases v <;> simp only [validateRecurringPattern] at h <;>
    first
      | exact validateBody_dw nd _ p h
      | simp at h

theorem sortDays_length (l : List Int) : (sortDays l).length = l.length :=
  (List.perm_insertionSort _ l).length_eq

theorem daysOfWeekStep_isSome (dw : JSValue) (o : Option (List Int))
    (h : daysOfWeekStep dw = .ok o) :
    o.isSome = true ↔ (truthy dw = true ∧ surviving dw ≠ []) := by
  simp only [daysOfWeekStep] at h
  split_ifs at h with ht
  · cases dw <;> simp at h
    rename_i xs
    by_cases hlen : 0 < (sortDays (filterDays xs)).length
    · rw [if_pos hlen] at h
      subst h
      have hne : filterDays xs ≠ [] := by
        intro hnil
        rw [hnil] at hlen
        simp [sortDays] at hlen
      simp [surviving, hne, ht]
    · rw [if_neg hlen] at h
      subst h
      have h2 := sortDays_length (filterDays xs)
      have h3 : filterDays xs = [] := List.length_eq_zero.mp (by omega)
      simp [surviving, h3]
  · simp at h
    subst h
    simp [ht]

theorem validateBody_dayOfMonth (nd : JSValue → Option JSDate) (v : JSValue)
    (p : RecurringPattern) (h : validateBody nd v = .ok p) :
    p.dayOfMonth =
      (if truthy (getField v "dayOfMonth") then
        some (jsClampNum 1 31 (getField v "dayOfMonth")) else none) := by
  simp only [validateBody] at h
  cases hstep : daysOfWeekStep (getField v "daysOfWeek") with
  | error e => rw [hstep] at h; simp at h
  | ok o =>
    rw [hstep] at h
    simp only [Except.ok.injEq] at h
    subst h
    rfl

theorem validate_dayOfMonth (nd : JSValue → Option JSDate) (v : JSValue)
    (p : RecurringPattern) (h : validateRecurringPattern nd v = .ok p) :
    p.dayOfMonth =
      (if truthy (getField v "dayOfMonth") then
        some (jsClampNum 1 31 (getField v "dayOfMonth")) else none) := by
  cases v <;> simp only [validateRecurringPattern] at h <;>
    first
      | exact validateBody_dayOfMonth nd _ p h
      | simp at h

theorem validateBody_month (nd : JSValue → Option JSDate) (v : JSValue)
    (p : RecurringPattern) (h : validateBody nd v = .ok p) :
    p.month =
      (if truthy (getField v "month") then
        some (jsClampNum 1 12 (getField v "month")) else none) := by
  simp only [validateBody] at h
  cases hstep : daysOfWeekStep (getField v "daysOfWeek") with
  | error e => rw [hstep] at h; simp at h
  | ok o =>
    rw [hstep] at h
    simp only [Except.ok.injEq] at h
    subst h
    rfl

theorem validate_month (nd : JSValue → Option JSDate) (v : JSValue)
    (p : RecurringPattern) (h : validateRecurringPattern nd v = .ok p) :
    p.month =
      (if truthy (getField v "month") then
        some (jsClampNum 1 12 (getField v "month")) else none) := by
  cases v <;> simp only [validateRecurringPattern] at h <;>
    first
      | exact validateBody_month nd _ p h
      | simp at h

/-! ## Claim theorems -/

/-- Claim C1, counterexample: the claim states that the end-date policy also
covers the custom-type path, but `getNextOccurrence` returns the custom
candidate directly, before the end-date check: for a custom task anchored at
the epoch whose end date is the epoch itself, the computed candidate (one day
later) strictly exceeds the end date, yet the function returns it instead of
null. -/
theorem C1_custom_endDate_cex :
    getNextOccurrence taskC1cex = some ⟨1, 0⟩ ∧
    timestamp ⟨0, 0⟩ < timestamp ⟨1, 0⟩ ∧
    taskC1cex.recurringPattern = some ⟨.custom, 1, none, none, none, some ⟨0, 0⟩⟩ := by
  refine ⟨by decide, by decide, rfl⟩

/-- Claim C1, amended: for every recurring task with an anchor date and a
pattern whose endDate is present, and whose type is one of the five
non-custom types, `getNextOccurrence` returns null exactly when the candidate
computed by the type-specific path strictly exceeds the end date, and the
candidate otherwise.  (The custom path bypasses the end-date check.) -/
theorem C1_endDate_policy_amended (t : TaskRecord) (ld : JSDate)
    (p : RecurrencePattern) (ed : JSDate)
    (hrec : t.isRecurring = true) (hdate : t.date = some ld)
    (hpat : t.recurringPattern = some p) (hnc : p.type ≠ RecType.custom)
    (hed : p.endDate = some ed) :
    getNextOccurrence t =
      (if timestamp ed < timestamp (nextDateByType ld p) then none
       else some (nextDateByType ld p)) := by
  simp only [getNextOccurrence, hrec, hdate, hpat, Bool.not_true, if_false,
    Option.getD_some]
  cases hty : p.type
  case custom => exact absurd hty hnc
  all_goals
    simp only [endDateBlocks, hed]
    by_cases hcmp : timestamp ed < timestamp (nextDateByType ld p) <;>
      simp [hcmp, nextDateByType, hty]

/-- Claim C1 witness: the amended theorem applied to a concrete daily task
with a far-away end date. -/
theorem C1_endDate_policy_witness :
    getNextOccurrence taskC1w =
      (if timestamp ⟨100, 0⟩ < timestamp (nextDateByType ⟨0, 0⟩ patC1w) then none
       else some (nextDateByType ⟨0, 0⟩ patC1w)) :=
  C1_endDate_policy_amended taskC1w ⟨0, 0⟩ patC1w ⟨100, 0⟩ rfl rfl rfl (by decide) rfl

/-- Claim C5: for a weekly pattern, `getNextOccurrence` advances the anchor by
interval * 7 days and, when daysOfWeek is non-empty, replaces that candidate
with the first date within at most 7 days (inclusive) whose weekday lies in
daysOfWeek; the anchor 2024-01-15 (a Monday) with weekly interval 1 and
daysOfWeek [1] yields 2024-01-22; and for every base date and non-empty
subset of [0, 6] the day-of-week search returns some date. -/
theorem contains_false_not_mem {l : List Int} {a : Int} (h : l.contains a = false) :
    a ∉ l := by
  intro hm
  have h2 := List.elem_iff.mpr hm
  rw [List.contains, h2] at h
  cases h

theorem C5_weekly_day_search :
    (∀ (t : TaskRecord) (ld : JSDate) (p : RecurrencePattern) (ds : List Int),
      t.isRecurring = true → t.date = some ld → t.recurringPattern = some p →
      p.type = RecType.weekly → p.daysOfWeek = some ds → ds ≠ [] →
      (∀ d ∈ ds, 0 ≤ d ∧ d ≤ 6) → p.endDate = none →
      ∃ i : Nat, i ≤ 6 ∧
        getNextOccurrence t = some (addDays (addDays ld (p.interval * 7)) i) ∧
        jsGetDay (addDays (addDays ld (p.interval * 7)) i) ∈ ds ∧
        ∀ j : Nat, j < i → jsGetDay (addDays (addDays ld (p.interval * 7)) j) ∉ ds) ∧
    getNextOccurrence taskC5 = some (dateYMD 2024 1 22) ∧
    (∀ (b : JSDate) (ds : List Int), ds ≠ [] → (∀ d ∈ ds, 0 ≤ d ∧ d ≤ 6) →
      (findNextDayOfWeek b ds).isSome = true) := by
  refine ⟨?_, by decide, findNextDayOfWeek_isSome⟩
  intro t ld p ds hrec hdate hpat hty hds hne hbound hed
  have hcand := jsSetDate_getDate_add ld (p.interval * 7)
  have hsome := findNextDayOfWeek_isSome (addDays ld (p.interval * 7)) ds hne hbound
  obtain ⟨r, hr⟩ := Option.isSome_iff_exists.mp hsome
  obtain ⟨i, hi7, hri, hmem, hmin⟩ := findNextDayOfWeek_some _ _ _ hr
  refine ⟨i, by omega, ?_, ?_, ?_⟩
  · simp only [getNextOccurrence, hrec, hdate, hpat, Bool.not_true, if_false,
      Option.getD_some, hty]
    simp only [nextDateByType, hty, hds, Option.isSome_some, Option.getD_some,
      List.length_pos, hne, true_and, not_false_iff, if_true, hcand, hr,
      endDateBlocks, hed]
    simp [hne, hri]
  · exact List.elem_iff.mp hmem
  · intro j hj
    exact contains_false_not_mem (hmin j hj)

/-- Claim C5 witness: the first conjunct applied to the concrete Monday
anchor task. -/
theorem C5_weekly_day_search_witness :
    ∃ i : Nat, i ≤ 6 ∧
      getNextOccurrence taskC5 =
        some (addDays (addDays (dateYMD 2024 1 15) (1 * 7)) i) ∧
      jsGetDay (addDays (addDays (dateYMD 2024 1 15) (1 * 7)) i) ∈ [(1 : Int)] ∧
      ∀ j : Nat, j < i → jsGetDay (addDays (addDays (dateYMD 2024 1 15) (1 * 7)) j) ∉ [(1 : Int)] :=
  C5_weekly_day_search.1 taskC5 (dateYMD 2024 1 15)
    ⟨.weekly, 1, some [1], none, none, none⟩ [1] rfl rfl rfl rfl rfl (by decide)
    (by decide) rfl

/-- Claim C9: whenever `getNextOccurrence` returns a date, the time-of-day
payload of that date (hour, minute, second, millisecond) equals that of the
anchor date: every computation path mutates only date components. -/
theorem C9_time_of_day_preserved (t : TaskRecord) (ld r : JSDate)
    (hdate : t.date = some ld) (h : getNextOccurrence t = some r) :
    r.tod = ld.tod := by
  simp only [getNextOccurrence, hdate] at h
  by_cases hrec : t.isRecurring
  · simp only [hrec, Bool.not_true, if_false] at h
    cases hty : (t.recurringPattern.getD defaultPattern).type <;> simp only [hty] at h
    on_goal 6 => exact getCustom_tod ld _ r h
    all_goals split_ifs at h with hblock <;> simp at h
    all_goals subst h
    all_goals exact nextDateByType_tod ld _
  · simp [hrec] at h

/-- Claim C9 witness: a daily task anchored at time-of-day payload 77 keeps
it in the next occurrence. -/
theorem C9_time_of_day_preserved_witness :
    (⟨12, 77⟩ : JSDate).tod = (⟨10, 77⟩ : JSDate).tod :=
  C9_time_of_day_preserved taskC9w ⟨10, 77⟩ ⟨12, 77⟩ rfl (by decide)

/-- Claim C10: for every recurring task with an anchor date and every
validated pattern (interval at least 1, dayOfMonth at least 1 when present,
month in [1, 12] when present), whenever `getNextOccurrence` returns a date
it is strictly later than the anchor date, on every path including the
monthly, yearly and custom ones with forced components. -/
theorem C10_forward_progress (t : TaskRecord) (ld : JSDate)
    (p : RecurrencePattern) (r : JSDate)
    (hrec : t.isRecurring = true) (hdate : t.date = some ld)
    (hpat : t.recurringPattern = some p)
    (hint : 1 ≤ p.interval)
    (hdom : ∀ dv, p.dayOfMonth = some dv → 1 ≤ dv)
    (hmon : ∀ mv, p.month = some mv → 1 ≤ mv ∧ mv ≤ 12)
    (h : getNextOccurrence t = some r) :
    timestamp ld < timestamp r := by
  simp only [getNextOccurrence, hrec, hdate, hpat, Bool.not_true, if_false,
    Option.getD_some] at h
  have htod := nextDateByType_tod ld p
  cases hty : p.type <;> simp only [hty] at h
  on_goal 6 =>
    obtain ⟨hlt, htod2⟩ := getCustom_spec ld p r hdom h
    simp only [timestamp]
    omega
  all_goals split_ifs at h with hblock <;> simp at h
  all_goals subst h
  all_goals have hlt := nextDateByType_lt ld p hint hdom hmon (by rw [hty]; simp)
  all_goals simp only [timestamp]
  all_goals omega

/-- Claim C10 witness: monthly from 2024-01-31 with forced day 31 lands on
2024-03-31, strictly later than the anchor. -/
theorem C10_forward_progress_witness :
    timestamp (dateYMD 2024 1 31) < timestamp (dateYMD 2024 3 31) :=
  C10_forward_progress taskC10w (dateYMD 2024 1 31)
    ⟨.monthly, 1, none, some 31, none, none⟩ (dateYMD 2024 3 31) rfl rfl rfl
    (by norm_num)
    (by intro dv h; simp at h; omega)
    (by intro mv h; simp at h)
    (by decide)

/-- Claim C2, counterexample: the claim states that `parseRecurringPattern`
never raises for any input including degenerate objects such as null; but for
the direct object input null the property read `pattern.type` inside
`validateRecurringPattern` throws a TypeError, which no try/catch intercepts. -/
theorem C2_null_object_cex :
    parseRecurringPattern jpNone ndNone (.objInput .null) = .error () := rfl

/-- Claim C2, amended: for every string input (JSON-encoded or not),
`parseRecurringPattern` terminates without raising and returns a pattern with
a valid type, a normalized daysOfWeek, numeric fields clamped into range
whenever they are actual numbers (a truthy non-numeric field yields NaN
rather than a clamped number), and a validated end date; degenerate direct
object inputs such as null raise a TypeError instead. -/
theorem C2_string_input_total_amended (jp : String → Option JSValue)
    (nd : JSValue → Option JSDate) (s : String) :
    ∃ p, parseRecurringPattern jp nd (.strInput s) = .ok p ∧ PatternShapeOk nd p :=
  parse_str_ok jp nd s

/-- Claim C3, counterexample: the claim states the validated daysOfWeek list
is duplicate-free, but the validator only filters and sorts: the input list
[1, 1] survives as [1, 1], which is not duplicate-free. -/
theorem C3_duplicates_cex :
    validateRecurringPattern ndNone (.obj [("daysOfWeek", .arr [.num 1, .num 1])]) =
      .ok ⟨.daily, .val 1, some [1, 1], none, none, none⟩ ∧
    ¬ ([1, 1] : List Int).Nodup :=
  ⟨rfl, by decide⟩

/-- Claim C3, amended: the daysOfWeek field of every validator result, when
present, is an ascending-sorted (not deduplicated) non-empty list of integers
in [0, 6], and it is present exactly when the raw field is truthy and at
least one entry survives the integer-and-range filter. -/
theorem C3_daysOfWeek_amended (nd : JSValue → Option JSDate) (v : JSValue)
    (p : RecurringPattern) (h : validateRecurringPattern nd v = .ok p) :
    (∀ l, p.daysOfWeek = some l →
      l ≠ [] ∧ l.Sorted (· ≤ ·) ∧ ∀ x ∈ l, 0 ≤ x ∧ x ≤ 6) ∧
    (p.daysOfWeek.isSome = true ↔
      truthy (getField v "daysOfWeek") = true ∧ surviving (getField v "daysOfWeek") ≠ []) := by
  refine ⟨(validate_inv nd v p h).2.1, ?_⟩
  obtain ⟨o, hstep, hdw⟩ := validate_dw nd v p h
  rw [hdw]
  exact daysOfWeekStep_isSome _ o hstep

/-- Claim C3 witness: the amended theorem applied to the unsorted raw input
[3, 1]. -/
theorem C3_daysOfWeek_witness :
    (∀ l, pC3w.daysOfWeek = some l →
      l ≠ [] ∧ l.Sorted (· ≤ ·) ∧ ∀ x ∈ l, 0 ≤ x ∧ x ≤ 6) ∧
    (pC3w.daysOfWeek.isSome = true ↔
      truthy (getField vC3w "daysOfWeek") = true ∧
      surviving (getField vC3w "daysOfWeek") ≠ []) :=
  C3_daysOfWeek_amended ndNone vC3w pC3w rfl

/-- Claim C4, counterexample: the claim states every out-of-range dayOfMonth
is clamped into [1, 31], but the falsy value 0 is dropped instead: the
validated pattern of an input with dayOfMonth 0 has no dayOfMonth at all. -/
theorem C4_dayOfMonth_zero_cex :
    ¬ (∀ p, validateRecurringPattern ndNone
        (.obj [("type", .str "monthly"), ("dayOfMonth", .num 0)]) = .ok p →
        ∃ n, p.dayOfMonth = some (.val n) ∧ 1 ≤ n ∧ n ≤ 31) := by
  intro hclaim
  obtain ⟨n, hn, _⟩ := hclaim ⟨.monthly, .val 1, none, none, none, none⟩ rfl
  simp at hn

/-- Claim C4, amended: parsing an object with type daily and integer interval
i yields interval max(1, i) for every integer i; and every present integer
dayOfMonth other than the falsy 0 is clamped into [1, 31], every present
integer month other than 0 is clamped into [1, 12] (the value 0 is dropped,
leaving the field absent). -/
theorem C4_clamping_amended :
    (∀ (jp : String → Option JSValue) (nd : JSValue → Option JSDate) (i : Int),
      parseRecurringPattern jp nd
          (.objInput (.obj [("type", .str "daily"), ("interval", .num i)])) =
        .ok ⟨.daily, .val (max 1 i), none, none, none, none⟩) ∧
    (∀ (nd : JSValue → Option JSDate) (v : JSValue) (p : RecurringPattern) (n : Int),
      validateRecurringPattern nd v = .ok p → getField v "dayOfMonth" = .num n →
      n ≠ 0 →
      p.dayOfMonth = some (.val (max 1 (min 31 n))) ∧
      1 ≤ max 1 (min 31 n) ∧ max 1 (min 31 n) ≤ 31) ∧
    (∀ (nd : JSValue → Option JSDate) (v : JSValue) (p : RecurringPattern) (n : Int),
      validateRecurringPattern nd v = .ok p → getField v "month" = .num n →
      n ≠ 0 →
      p.month = some (.val (max 1 (min 12 n))) ∧
      1 ≤ max 1 (min 12 n) ∧ max 1 (min 12 n) ≤ 12) := by
  refine ⟨?_, ?_, ?_⟩
  · intro jp nd i
    show validateBody nd (.obj [("type", .str "daily"), ("interval", .num i)]) =
      .ok ⟨.daily, .val (max 1 i), none, none, none, none⟩
    have hkey : jsMaxNum 1 (jsOr (.num i) (.num 1)) = .val (max 1 i) := by
      simp only [jsOr, truthy]
      by_cases hi : i = 0
      · subst hi
        norm_num [jsMaxNum, toNumber]
      · have hb : (i != 0) = true := by simpa using hi
        rw [if_pos hb]
        simp [jsMaxNum, toNumber]
    calc validateBody nd (.obj [("type", .str "daily"), ("interval", .num i)])
        = .ok ⟨.daily, jsMaxNum 1 (jsOr (.num i) (.num 1)), none, none, none, none⟩ :=
          rfl
      _ = .ok ⟨.daily, .val (max 1 i), none, none, none, none⟩ := by rw [hkey]
  · intro nd v p n h hfield hn
    have hp := validate_dayOfMonth nd v p h
    rw [hfield] at hp
    have hb : truthy (JSValue.num n) = true := by simpa [truthy] using hn
    rw [if_pos hb] at hp
    refine ⟨?_, by omega, by omega⟩
    rw [hp]
    simp [jsClampNum, toNumber]
  · intro nd v p n h hfield hn
    have hp := validate_month nd v p h
    rw [hfield] at hp
    have hb : truthy (JSValue.num n) = true := by simpa [truthy] using hn
    rw [if_pos hb] at hp
    refine ⟨?_, by omega, by omega⟩
    rw [hp]
    simp [jsClampNum, toNumber]

/-- Claim C4 witness: interval -5 becomes max(1, -5) = 1; dayOfMonth 45 is
clamped to 31; month 15 is clamped to 12. -/
theorem C4_clamping_witness :
    parseRecurringPattern jpNone ndNone
        (.objInput (.obj [("type", .str "daily"), ("interval", .num (-5))])) =
      .ok ⟨.daily, .val (max 1 (-5)), none, none, none, none⟩ ∧
    (pC4dom.dayOfMonth = some (.val (max 1 (min 31 (45 : Int)))) ∧
      (1 : Int) ≤ max 1 (min 31 (45 : Int)) ∧ max 1 (min 31 (45 : Int)) ≤ 31) ∧
    (pC4mon.month = some (.val (max 1 (min 12 (15 : Int)))) ∧
      (1 : Int) ≤ max 1 (min 12 (15 : Int)) ∧ max 1 (min 12 (15 : Int)) ≤ 12) :=
  ⟨C4_clamping_amended.1 jpNone ndNone (-5),
   C4_clamping_amended.2.1 ndNone vC4dom pC4dom 45 rfl rfl (by norm_num),
   C4_clamping_amended.2.2 ndNone vC4mon pC4mon 15 rfl rfl (by norm_num)⟩

/-- Claim C7: a string that is not valid JSON is treated as a type keyword
with interval 1: parsing the non-JSON string "weekly" yields the weekly
pattern with interval 1, and the unrecognized keyword
"not-json-not-a-type" defaults to daily with interval 1. -/
theorem C7_legacy_fallback (jp : String → Option JSValue) (nd : JSValue → Option JSDate)
    (h1 : jp "weekly" = none) (h2 : jp "not-json-not-a-type" = none) :
    parseRecurringPattern jp nd (.strInput "weekly") =
      .ok ⟨.weekly, .val 1, none, none, none, none⟩ ∧
    parseRecurringPattern jp nd (.strInput "not-json-not-a-type") =
      .ok ⟨.daily, .val 1, none, none, none, none⟩ := by
  constructor
  · simp only [parseRecurringPattern, h1]
    exact legacy_ok nd "weekly"
  · simp only [parseRecurringPattern, h2]
    exact legacy_ok nd "not-json-not-a-type"

/-- Claim C7 witness: the theorem applied to the stub JSON parser that
rejects every string. -/
theorem C7_legacy_fallback_witness :
    parseRecurringPattern jpNone ndNone (.strInput "weekly") =
      .ok ⟨.weekly, .val 1, none, none, none, none⟩ ∧
    parseRecurringPattern jpNone ndNone (.strInput "not-json-not-a-type") =
      .ok ⟨.daily, .val 1, none, none, none, none⟩ :=
  C7_legacy_fallback jpNone ndNone rfl rfl

/-- Claim C8: `getRecurrenceSummary` renders the three specified patterns to
exactly the specified strings. -/
theorem C8_summary_exact :
    getRecurrenceSummary ⟨.weekly, 1, some [1, 3, 5], none, none, none⟩ =
      "Every week on Mon, Wed, Fri" ∧
    getRecurrenceSummary ⟨.yearly, 1, none, some 25, some 12, none⟩ =
      "Every year on Dec 25" ∧
    getRecurrenceSummary ⟨.monthly, 2, none, some 15, none, none⟩ =
      "Every 2 months" := by
  refine ⟨?_, ?_, ?_⟩ <;> decide

/-- Claim C6: `isTaskActive` returns true for every non-recurring task, for
every recurring task with no stored pattern (NULL or empty), and for every
task whose parsed pattern lacks an endDate; otherwise it returns true exactly
when the calendar day of today, with time-of-day zeroed on both sides, is on
or before the calendar day of the parsed end date.  Parsing of stored strings
is total (`parse_str_ok`), so the fail-open catch branch never fires. -/
theorem C6_isTaskActive_iff (jp : String → Option JSValue)
    (nd : JSValue → Option JSDate) (today : JSDate) (task : TaskRow) :
    isTaskActive jp nd today task = true ↔
      (task.isRecurring = false ∨ task.recurringPattern = none ∨
       task.recurringPattern = some "" ∨
       ∃ s p, task.recurringPattern = some s ∧
         parseRecurringPattern jp nd (.strInput s) = .ok p ∧
         (p.endDate = none ∨
          ∃ v ed, p.endDate = some v ∧ nd v = some ed ∧ today.days ≤ ed.days)) := by
  obtain ⟨rec, rp⟩ := task
  cases rec
  · simp [isTaskActive]
  · cases rp with
    | none => simp [isTaskActive]
    | some s =>
      simp only [isTaskActive, Bool.not_true, Bool.false_eq_true, if_false]
      by_cases hs : s = ""
      · subst hs
        simp
      · rw [if_neg hs]
        obtain ⟨p, hp, hshape⟩ := parse_str_ok jp nd s
        rw [hp]
        simp only [Bool.true_eq_false, false_or, Option.some.injEq, hs, reduceCtorEq]
        cases hed : p.endDate with
        | none =>
          constructor
          · intro _
            exact ⟨s, p, rfl, hp, Or.inl hed⟩
          · intro _
            trivial
        | some v =>
          obtain ⟨htr, hnd⟩ := hshape.2.2.2.2 v hed
          obtain ⟨ed, hedd⟩ := Option.isSome_iff_exists.mp hnd
          show (if truthy v = false then true
                else match nd v with
                  | some endDate =>
                    decide (timestamp (setHours0 today) ≤ timestamp (setHours0 endDate))
                  | none => false) = true ↔ _
          rw [if_neg (by simp [htr] : ¬ truthy v = false), hedd]
          show decide (timestamp (setHours0 today) ≤ timestamp (setHours0 ed)) = true ↔ _
          simp only [setHours0, timestamp, decide_eq_true_eq]
          constructor
          · intro hle
            refine ⟨s, p, rfl, hp, Or.inr ⟨v, ed, hed, hedd, by omega⟩⟩
          · rintro ⟨s2, p2, hs2, hp2, hcase⟩
            obtain rfl : s2 = s := hs2.symm
            rw [hp] at hp2
            obtain rfl : p2 = p := by injection hp2 with h; exact h.symm
            rcases hcase with hnone | ⟨v2, ed2, hv2, hnd2, hle⟩
            · rw [hed] at hnone
              cases hnone
            · rw [hed] at hv2
              obtain rfl : v2 = v := by injection hv2 with h; exact h.symm
              rw [hedd] at hnd2
              obtain rfl : ed2 = ed := by injection hnd2 with h; exact h.symm
              omega
